import Mathlib

/-!
Verification development for the spring-coiling process core.

The definitions below are a shallow embedding of the process-timeline
generator, the keyframe interpolator, the axis-position sampler
(src/utils/processGenerator.ts) and the timeline store
(src/stores/processStore.ts).  JavaScript numbers are modelled as
rationals; the constant Math.PI is embedded as the exact rational value
of the IEEE-754 double nearest to pi.  Display-only string fields
(displayName, description, axis display name, unit) and the unused
optional Keyframe velocity field are omitted: no observable computation
reads them.
-/

/-- The exact rational value of the IEEE-754 double Math.PI
(3.141592653589793115997963...). -/
def mathPi : ℚ := 884279719003555 / 281474976710656

/-- Phase labels, from src/types/process.ts (ProcessPhase). -/
inductive ProcessPhase where
  | idle
  | first_closed_coil
  | body_coils
  | end_closed_coil
  | pre_cut
  | cutting
  | done
  | reset
deriving DecidableEq, Repr

/-- A keyframe (time, position), from src/types/process.ts. -/
structure Keyframe where
  time : ℚ
  position : ℚ
deriving DecidableEq, Repr

/-- A single axis motion profile, from src/types/process.ts. -/
structure AxisProfile where
  axisId : String
  keyframes : List Keyframe
deriving DecidableEq, Repr

/-- One process phase with its half-open time interval, from
src/types/process.ts. -/
structure ProcessPhaseData where
  name : ProcessPhase
  startTime : ℚ
  endTime : ℚ
deriving DecidableEq, Repr

/-- Spring geometry bookkeeping carried by a generated process. -/
structure SpringGeometry where
  wireDiameter : ℚ
  meanDiameter : ℚ
  pitch : ℚ
  totalCoils : ℚ
  activeCoils : ℚ
  wirePerCoil : ℚ
  totalWireLength : ℚ
deriving DecidableEq, Repr

/-- A complete generated production process, from src/types/process.ts. -/
structure CompressionSpringProcess where
  totalCycleTime : ℚ
  phases : List ProcessPhaseData
  axes : List AxisProfile
  springGeometry : SpringGeometry
deriving DecidableEq, Repr

/-- End style of the spring, from src/types/process.ts.  It is accepted by
the generator but never read by it. -/
inductive EndType where
  | open_ends
  | closed
  | ground
deriving DecidableEq, Repr

/-- Input parameters of the process generator, from src/types/process.ts. -/
structure ProcessInputParams where
  wireDiameter : ℚ
  meanDiameter : ℚ
  activeCoils : ℚ
  totalCoils : ℚ
  pitch : ℚ
  endType : EndType
  feedSpeed : ℚ
deriving DecidableEq, Repr

/-- A per-instant resolved snapshot of all axis positions, from
src/types/process.ts. -/
structure AxisPositions where
  feed : ℚ
  coiling : ℚ
  pitch : ℚ
  cut : ℚ
  additional : ℚ
  currentPhase : ProcessPhase
  currentCoils : ℚ
deriving DecidableEq, Repr

/-- Embedding of generateCompressionSpringProcess from
src/utils/processGenerator.ts.  The running accumulator t of the source is
unfolded into the explicit cumulative time points t1End, t2End, tEndClosed,
preCutStart, preCutEnd, tCutEnd, totalCycleTime. -/
def generateCompressionSpringProcess (params : ProcessInputParams) :
    CompressionSpringProcess :=
  let wirePerCoil := mathPi * params.meanDiameter
  let closedCoils := (params.totalCoils - params.activeCoils) / 2
  let firstClosedCoils : ℚ := (⌈closedCoils⌉ : ℤ)
  let endClosedCoils : ℚ := (⌊closedCoils⌋ : ℤ)
  let firstClosedLength := wirePerCoil * firstClosedCoils
  let bodyLength := wirePerCoil * params.activeCoils
  let endClosedLength := wirePerCoil * endClosedCoils
  let totalWireLength := firstClosedLength + bodyLength + endClosedLength
  let timeFirstClosed := firstClosedLength / params.feedSpeed
  let timeBody := bodyLength / params.feedSpeed
  let timeEndClosed := endClosedLength / params.feedSpeed
  let timeCut : ℚ := 3 / 10
  let timeReset : ℚ := 2 / 10
  let t1End := 1 / 10 + timeFirstClosed
  let t2End := t1End + timeBody
  let tEndClosed := t2End + timeEndClosed
  let preCutStart := if 0 < endClosedCoils then tEndClosed else t2End
  let preCutEnd := preCutStart + 1 / 10
  let tCutEnd := preCutEnd + timeCut
  let totalCycleTime := tCutEnd + timeReset
  let phases : List ProcessPhaseData :=
    [⟨ProcessPhase.idle, 0, 1 / 10⟩,
     ⟨ProcessPhase.first_closed_coil, 1 / 10, t1End⟩,
     ⟨ProcessPhase.body_coils, t1End, t2End⟩]
    ++ (if 0 < endClosedCoils then
          [⟨ProcessPhase.end_closed_coil, t2End, tEndClosed⟩] else [])
    ++ [⟨ProcessPhase.pre_cut, preCutStart, preCutEnd⟩,
        ⟨ProcessPhase.cutting, preCutEnd, tCutEnd⟩,
        ⟨ProcessPhase.reset, tCutEnd, totalCycleTime⟩]
  let feedKeyframes : List Keyframe :=
    [⟨0, 0⟩, ⟨1 / 10, 0⟩, ⟨t1End, firstClosedLength⟩,
     ⟨t2End, firstClosedLength + bodyLength⟩]
    ++ (if 0 < endClosedCoils then [⟨tEndClosed, totalWireLength⟩] else [])
    ++ [⟨tCutEnd, totalWireLength⟩, ⟨totalCycleTime, totalWireLength⟩]
  let coilingTarget := params.meanDiameter / 2
  let coilingKeyframes : List Keyframe :=
    [⟨0, coilingTarget + 10⟩, ⟨1 / 10, coilingTarget⟩,
     ⟨tCutEnd, coilingTarget⟩, ⟨totalCycleTime, coilingTarget + 10⟩]
  let bodyPitchStart := params.wireDiameter * firstClosedCoils
  let bodyPitchEnd := bodyPitchStart + params.pitch * params.activeCoils
  let pitchBase : List Keyframe :=
    [⟨0, 0⟩, ⟨1 / 10, 0⟩, ⟨t1End, params.wireDiameter * firstClosedCoils⟩,
     ⟨t2End, bodyPitchEnd⟩]
    ++ (if 0 < endClosedCoils then
          [⟨tEndClosed, bodyPitchEnd + params.wireDiameter * endClosedCoils⟩]
        else [])
  let pitchKeyframes : List Keyframe :=
    pitchBase ++ [⟨tCutEnd, (pitchBase.getLastD ⟨0, 0⟩).position⟩,
                  ⟨totalCycleTime, 0⟩]
  let cutSafePos : ℚ := 30
  let cutActivePos : ℚ := 0
  let cutApproachTime :=
    ((phases.find? (fun p => p.name == ProcessPhase.pre_cut)).map
      (fun p => p.startTime)).getD (tCutEnd - 4 / 10)
  let cutKeyframes : List Keyframe :=
    [⟨0, cutSafePos⟩, ⟨cutApproachTime, cutSafePos⟩,
     ⟨cutApproachTime + 1 / 10, cutSafePos * (1 / 2)⟩,
     ⟨tCutEnd - 1 / 10, cutActivePos⟩, ⟨tCutEnd, cutActivePos⟩,
     ⟨totalCycleTime, cutSafePos⟩]
  let addSafePos : ℚ := 20
  let addActivePos : ℚ := 5
  let addKeyframes : List Keyframe :=
    [⟨0, addSafePos⟩, ⟨1 / 10, addActivePos⟩, ⟨t1End, addActivePos⟩,
     ⟨t1End + 1 / 10, addSafePos⟩, ⟨t2End - 1 / 10, addSafePos⟩,
     ⟨t2End, if 0 < endClosedCoils then addActivePos else addSafePos⟩,
     ⟨tCutEnd, addSafePos⟩, ⟨totalCycleTime, addSafePos⟩]
  { totalCycleTime := totalCycleTime
    phases := phases
    axes :=
      [⟨"feed", feedKeyframes⟩, ⟨"coiling", coilingKeyframes⟩,
       ⟨"pitch", pitchKeyframes⟩, ⟨"cut", cutKeyframes⟩,
       ⟨"additional", addKeyframes⟩]
    springGeometry :=
      { wireDiameter := params.wireDiameter
        meanDiameter := params.meanDiameter
        pitch := params.pitch
        totalCoils := params.totalCoils
        activeCoils := params.activeCoils
        wirePerCoil := wirePerCoil
        totalWireLength := totalWireLength } }

/-- The linear-segment scan inside the interpolate closure of
interpolateAxisPositions: find the first adjacent pair of keyframes whose
half-open interval contains t and return the linear interpolation there. -/
def findSegment (t : ℚ) : List Keyframe → Option ℚ
  | k0 :: k1 :: rest =>
    if k0.time ≤ t ∧ t < k1.time then
      some (k0.position +
        (t - k0.time) / (k1.time - k0.time) * (k1.position - k0.position))
    else findSegment t (k1 :: rest)
  | _ => none

/-- Embedding of the interpolate closure of interpolateAxisPositions:
empty list gives 0, times at or before the first keyframe left-clamp,
times at or after the last keyframe right-clamp, otherwise the first
containing segment interpolates linearly (with the final return of the
source as the fallback of the scan). -/
def interpolate (keyframes : List Keyframe) (t : ℚ) : ℚ :=
  match keyframes with
  | [] => 0
  | k :: ks =>
    let lastK := ks.getLastD k
    if t ≤ k.time then k.position
    else if lastK.time ≤ t then lastK.position
    else (findSegment t (k :: ks)).getD lastK.position

/-- The phase-resolution loop of interpolateAxisPositions: the phase name
of the first phase whose half-open interval contains t, defaulting to idle
as in the source initialisation. -/
def scanPhase (t : ℚ) : List ProcessPhaseData → ProcessPhase
  | [] => ProcessPhase.idle
  | p :: ps => if p.startTime ≤ t ∧ t < p.endTime then p.name else scanPhase t ps

/-- The axis lookup of interpolateAxisPositions: a missing axis id
resolves to position 0. -/
def getAxisPos (axes : List AxisProfile) (t : ℚ) (id : String) : ℚ :=
  match axes.find? (fun a => a.axisId == id) with
  | some a => interpolate a.keyframes t
  | none => 0

/-- Embedding of interpolateAxisPositions from
src/utils/processGenerator.ts. -/
def interpolateAxisPositions (process : CompressionSpringProcess)
    (time : ℚ) : AxisPositions :=
  let t := max 0 (min time process.totalCycleTime)
  let scanned := scanPhase t process.phases
  let lastPhase := process.phases.getLastD ⟨ProcessPhase.idle, 0, 0⟩
  let currentPhase :=
    if lastPhase.endTime ≤ t then ProcessPhase.reset else scanned
  let feedPos := getAxisPos process.axes t "feed"
  let currentCoils := feedPos / process.springGeometry.wirePerCoil
  { feed := feedPos
    coiling := getAxisPos process.axes t "coiling"
    pitch := getAxisPos process.axes t "pitch"
    cut := getAxisPos process.axes t "cut"
    additional := getAxisPos process.axes t "additional"
    currentPhase := currentPhase
    currentCoils := currentCoils }

/-- A recipe as read by the timeline store: the store only ever reads the
optional totalCycleTime field of a SpringRecipe. -/
structure SpringRecipe where
  totalCycleTime : Option ℚ
deriving DecidableEq, Repr

/-- The state of the timeline store (src/stores/processStore.ts). -/
structure ProcessState where
  process : Option CompressionSpringProcess
  currentTime : ℚ
  isPlaying : Bool
  playbackSpeed : ℚ
  axisPositions : Option AxisPositions
  currentRecipe : Option SpringRecipe
  duration : ℚ
deriving DecidableEq, Repr

/-- Embedding of setTime from src/stores/processStore.ts. -/
def setTime (s : ProcessState) (time : ℚ) : ProcessState :=
  match s.process with
  | none => s
  | some p =>
    let clampedTime := max 0 (min time p.totalCycleTime)
    { s with currentTime := clampedTime
             axisPositions := some (interpolateAxisPositions p clampedTime) }

/-- Embedding of reset from src/stores/processStore.ts. -/
def reset (s : ProcessState) : ProcessState :=
  match s.process with
  | none => s
  | some p =>
    { s with currentTime := 0
             axisPositions := some (interpolateAxisPositions p 0)
             isPlaying := false }

/-- Embedding of tick from src/stores/processStore.ts. -/
def tick (s : ProcessState) (deltaTime : ℚ) : ProcessState :=
  if s.isPlaying = false then s
  else
    let newTime0 := s.currentTime + deltaTime * s.playbackSpeed
    let maxTime := (s.process.map (fun p => p.totalCycleTime)).getD s.duration
    let newTime := if maxTime ≤ newTime0 then 0 else newTime0
    { s with currentTime := newTime
             axisPositions :=
               s.process.map (fun p => interpolateAxisPositions p newTime) }

/-!
Named forms of the let-bound quantities of generateCompressionSpringProcess,
used to state and prove facts about the generated process.  The lemma
gen_eq below checks definitional agreement with the embedding above.
-/

namespace Gen

def wirePerCoil (p : ProcessInputParams) : ℚ := mathPi * p.meanDiameter

def closedCoils (p : ProcessInputParams) : ℚ := (p.totalCoils - p.activeCoils) / 2

def firstClosedCoils (p : ProcessInputParams) : ℚ := (⌈closedCoils p⌉ : ℤ)

def endClosedCoils (p : ProcessInputParams) : ℚ := (⌊closedCoils p⌋ : ℤ)

def firstClosedLength (p : ProcessInputParams) : ℚ := wirePerCoil p * firstClosedCoils p

def bodyLength (p : ProcessInputParams) : ℚ := wirePerCoil p * p.activeCoils

def endClosedLength (p : ProcessInputParams) : ℚ := wirePerCoil p * endClosedCoils p

def totalWireLength (p : ProcessInputParams) : ℚ :=
  firstClosedLength p + bodyLength p + endClosedLength p

def timeFirstClosed (p : ProcessInputParams) : ℚ := firstClosedLength p / p.feedSpeed

def timeBody (p : ProcessInputParams) : ℚ := bodyLength p / p.feedSpeed

def timeEndClosed (p : ProcessInputParams) : ℚ := endClosedLength p / p.feedSpeed

def t1End (p : ProcessInputParams) : ℚ := 1 / 10 + timeFirstClosed p

def t2End (p : ProcessInputParams) : ℚ := t1End p + timeBody p

def tEndClosed (p : ProcessInputParams) : ℚ := t2End p + timeEndClosed p

def preCutStart (p : ProcessInputParams) : ℚ :=
  if 0 < endClosedCoils p then tEndClosed p else t2End p

def preCutEnd (p : ProcessInputParams) : ℚ := preCutStart p + 1 / 10

def tCutEnd (p : ProcessInputParams) : ℚ := preCutEnd p + 3 / 10

def totalCycleTime (p : ProcessInputParams) : ℚ := tCutEnd p + 2 / 10

def phasesList (p : ProcessInputParams) : List ProcessPhaseData :=
  [⟨ProcessPhase.idle, 0, 1 / 10⟩,
   ⟨ProcessPhase.first_closed_coil, 1 / 10, t1End p⟩,
   ⟨ProcessPhase.body_coils, t1End p, t2End p⟩]
  ++ (if 0 < endClosedCoils p then
        [⟨ProcessPhase.end_closed_coil, t2End p, tEndClosed p⟩] else [])
  ++ [⟨ProcessPhase.pre_cut, preCutStart p, preCutEnd p⟩,
      ⟨ProcessPhase.cutting, preCutEnd p, tCutEnd p⟩,
      ⟨ProcessPhase.reset, tCutEnd p, totalCycleTime p⟩]

def feedKfs (p : ProcessInputParams) : List Keyframe :=
  [⟨0, 0⟩, ⟨1 / 10, 0⟩, ⟨t1End p, firstClosedLength p⟩,
   ⟨t2End p, firstClosedLength p + bodyLength p⟩]
  ++ (if 0 < endClosedCoils p then [⟨tEndClosed p, totalWireLength p⟩] else [])
  ++ [⟨tCutEnd p, totalWireLength p⟩, ⟨totalCycleTime p, totalWireLength p⟩]

def coilingTarget (p : ProcessInputParams) : ℚ := p.meanDiameter / 2

def coilingKfs (p : ProcessInputParams) : List Keyframe :=
  [⟨0, coilingTarget p + 10⟩, ⟨1 / 10, coilingTarget p⟩,
   ⟨tCutEnd p, coilingTarget p⟩, ⟨totalCycleTime p, coilingTarget p + 10⟩]

def bodyPitchStart (p : ProcessInputParams) : ℚ := p.wireDiameter * firstClosedCoils p

def bodyPitchEnd (p : ProcessInputParams) : ℚ :=
  bodyPitchStart p + p.pitch * p.activeCoils

def pitchBase (p : ProcessInputParams) : List Keyframe :=
  [⟨0, 0⟩, ⟨1 / 10, 0⟩, ⟨t1End p, p.wireDiameter * firstClosedCoils p⟩,
   ⟨t2End p, bodyPitchEnd p⟩]
  ++ (if 0 < endClosedCoils p then
        [⟨tEndClosed p, bodyPitchEnd p + p.wireDiameter * endClosedCoils p⟩]
      else [])

def pitchKfs (p : ProcessInputParams) : List Keyframe :=
  pitchBase p ++ [⟨tCutEnd p, ((pitchBase p).getLastD ⟨0, 0⟩).position⟩,
                  ⟨totalCycleTime p, 0⟩]

def cutApproachTime (p : ProcessInputParams) : ℚ :=
  (((phasesList p).find? (fun q => q.name == ProcessPhase.pre_cut)).map
    (fun q => q.startTime)).getD (tCutEnd p - 4 / 10)

def cutKfs (p : ProcessInputParams) : List Keyframe :=
  [⟨0, 30⟩, ⟨cutApproachTime p, 30⟩,
   ⟨cutApproachTime p + 1 / 10, 30 * (1 / 2)⟩,
   ⟨tCutEnd p - 1 / 10, 0⟩, ⟨tCutEnd p, 0⟩,
   ⟨totalCycleTime p, 30⟩]

def addKfs (p : ProcessInputParams) : List Keyframe :=
  [⟨0, 20⟩, ⟨1 / 10, 5⟩, ⟨t1End p, 5⟩,
   ⟨t1End p + 1 / 10, 20⟩, ⟨t2End p - 1 / 10, 20⟩,
   ⟨t2End p, if 0 < endClosedCoils p then 5 else 20⟩,
   ⟨tCutEnd p, 20⟩, ⟨totalCycleTime p, 20⟩]

def geometry (p : ProcessInputParams) : SpringGeometry :=
  { wireDiameter := p.wireDiameter
    meanDiameter := p.meanDiameter
    pitch := p.pitch
    totalCoils := p.totalCoils
    activeCoils := p.activeCoils
    wirePerCoil := wirePerCoil p
    totalWireLength := totalWireLength p }

def axesList (p : ProcessInputParams) : List AxisProfile :=
  [⟨"feed", feedKfs p⟩, ⟨"coiling", coilingKfs p⟩,
   ⟨"pitch", pitchKfs p⟩, ⟨"cut", cutKfs p⟩,
   ⟨"additional", addKfs p⟩]

end Gen

/-- The generator agrees definitionally with its named components. -/
theorem gen_eq (p : ProcessInputParams) :
    generateCompressionSpringProcess p =
      { totalCycleTime := Gen.totalCycleTime p
        phases := Gen.phasesList p
        axes := Gen.axesList p
        springGeometry := Gen.geometry p } := rfl

/-!
Properties of the keyframe interpolator.
-/

/-- Keyframe times are weakly increasing along the list. -/
def timesSorted (ks : List Keyframe) : Prop :=
  List.Chain' (fun a b => a.time ≤ b.time) ks

/-- Keyframe times are strictly increasing along the list. -/
def timesStrict (ks : List Keyframe) : Prop :=
  List.Chain' (fun a b => a.time < b.time) ks

/-- Keyframe positions are weakly increasing along the list. -/
def posMono (ks : List Keyframe) : Prop :=
  List.Chain' (fun a b => a.position ≤ b.position) ks

theorem interpolate_nil (t : ℚ) : interpolate [] t = 0 := rfl

theorem interpolate_single (k : Keyframe) (t : ℚ) :
    interpolate [k] t = k.position := by
  by_cases h1 : t ≤ k.time
  · simp [interpolate, h1]
  · by_cases h2 : k.time ≤ t <;> simp [interpolate, h1, h2, findSegment]

theorem interpolate_cons_left (k : Keyframe) (ks : List Keyframe) (t : ℚ)
    (h : t ≤ k.time) : interpolate (k :: ks) t = k.position := by
  simp [interpolate, h]

theorem interpolate_cons_right (k : Keyframe) (ks : List Keyframe) (t : ℚ)
    (h1 : ¬ t ≤ k.time) (h2 : (ks.getLastD k).time ≤ t) :
    interpolate (k :: ks) t = (ks.getLastD k).position := by
  simp only [interpolate]
  rw [if_neg h1, if_pos h2]

theorem time_le_getLastD {k : Keyframe} {ks : List Keyframe}
    (h : List.Chain' (fun a b => a.time ≤ b.time) (k :: ks)) :
    k.time ≤ (ks.getLastD k).time := by
  induction ks generalizing k with
  | nil => simp
  | cons b rest ih =>
    rw [List.getLastD_cons]
    rcases List.chain'_cons.mp h with ⟨h1, h2⟩
    exact le_trans h1 (ih h2)

theorem interpolate_seg {a b : Keyframe} {rest : List Keyframe} {t : ℚ}
    (hs : timesStrict (a :: b :: rest)) (h1 : a.time < t) (h2 : t < b.time) :
    interpolate (a :: b :: rest) t =
      a.position + (t - a.time) / (b.time - a.time) * (b.position - a.position) := by
  have hstail : timesStrict (b :: rest) := (List.chain'_cons.mp hs).2
  have hble : b.time ≤ (rest.getLastD b).time :=
    time_le_getLastD (hstail.imp fun a b h => le_of_lt h)
  have hn1 : ¬ t ≤ a.time := not_le.mpr h1
  have hn2 : ¬ ((b :: rest).getLastD a).time ≤ t := by
    rw [List.getLastD_cons]
    exact not_le.mpr (lt_of_lt_of_le h2 hble)
  simp only [interpolate]
  rw [if_neg hn1, if_neg hn2, findSegment, if_pos ⟨le_of_lt h1, h2⟩,
    Option.getD_some]

theorem interpolate_peel {a b : Keyframe} {rest : List Keyframe} {t : ℚ}
    (hs : timesStrict (a :: b :: rest)) (h : b.time ≤ t) :
    interpolate (a :: b :: rest) t = interpolate (b :: rest) t := by
  have hab : a.time < b.time := (List.chain'_cons.mp hs).1
  have hstail : timesStrict (b :: rest) := (List.chain'_cons.mp hs).2
  have hn1 : ¬ t ≤ a.time := not_le.mpr (lt_of_lt_of_le hab h)
  cases rest with
  | nil =>
    rw [interpolate_single]
    have := interpolate_cons_right a [b] t hn1 (by simpa using h)
    simpa using this
  | cons c rest' =>
    have hbc : b.time < c.time := (List.chain'_cons.mp hstail).1
    have hcle : c.time ≤ (rest'.getLastD c).time :=
      time_le_getLastD ((List.chain'_cons.mp hstail).2.imp fun a b h => le_of_lt h)
    by_cases hL : ((c :: rest').getLastD b).time ≤ t
    · rw [interpolate_cons_right a (b :: c :: rest') t hn1
        (by rw [List.getLastD_cons]; exact hL)]
      have hbt : ¬ t ≤ b.time := by
        rw [List.getLastD_cons] at hL
        exact not_le.mpr (lt_of_lt_of_le (lt_of_lt_of_le hbc hcle) hL)
      rw [interpolate_cons_right b (c :: rest') t hbt hL]
      rw [List.getLastD_cons]
    · by_cases hteq : t ≤ b.time
      · have ht : t = b.time := le_antisymm hteq h
        rw [interpolate_cons_left b (c :: rest') t hteq]
        have hn2 : ¬ ((b :: c :: rest').getLastD a).time ≤ t := by
          rw [List.getLastD_cons]; exact hL
        simp only [interpolate]
        rw [if_neg hn1, if_neg hn2, findSegment,
          if_neg (by rintro ⟨hx, hy⟩; exact absurd hy (not_lt.mpr h)),
          findSegment, if_pos ⟨h, by rw [ht]; exact hbc⟩, Option.getD_some,
          ht]
        ring
      · have hn2 : ¬ ((b :: c :: rest').getLastD a).time ≤ t := by
          rw [List.getLastD_cons]; exact hL
        simp only [interpolate]
        rw [if_neg hn1, if_neg hn2, if_neg hteq, if_neg hL,
          List.getLastD_cons]
        rw [findSegment, if_neg (by rintro ⟨hx, hy⟩; exact absurd hy (not_lt.mpr h))]

theorem head_le_interpolate {k : Keyframe} {ks : List Keyframe} (t : ℚ)
    (hs : timesStrict (k :: ks)) (hm : posMono (k :: ks)) :
    k.position ≤ interpolate (k :: ks) t := by
  induction ks generalizing k with
  | nil => rw [interpolate_single]
  | cons b rest ih =>
    have hkb : k.time < b.time := (List.chain'_cons.mp hs).1
    have hpb : k.position ≤ b.position := (List.chain'_cons.mp hm).1
    rcases le_or_lt t k.time with h | h
    · rw [interpolate_cons_left _ _ _ h]
    · rcases lt_or_le t b.time with h2 | h2
      · rw [interpolate_seg hs h h2]
        have hr : 0 ≤ (t - k.time) / (b.time - k.time) :=
          div_nonneg (by linarith) (by linarith)
        nlinarith
      · rw [interpolate_peel hs h2]
        have := ih (k := b) (List.chain'_cons.mp hs).2 (List.chain'_cons.mp hm).2
        linarith

theorem interpolate_mono {ks : List Keyframe} (hs : timesStrict ks)
    (hm : posMono ks) {t1 t2 : ℚ} (h : t1 ≤ t2) :
    interpolate ks t1 ≤ interpolate ks t2 := by
  induction ks with
  | nil => simp [interpolate_nil]
  | cons k ks ih =>
    cases ks with
    | nil => simp [interpolate_single]
    | cons b rest =>
      have hkb : k.time < b.time := (List.chain'_cons.mp hs).1
      have hpb : k.position ≤ b.position := (List.chain'_cons.mp hm).1
      have hstail := (List.chain'_cons.mp hs).2
      have hmtail := (List.chain'_cons.mp hm).2
      rcases le_or_lt t2 k.time with hA | hA
      · rw [interpolate_cons_left k _ t1 (le_trans h hA),
          interpolate_cons_left k _ t2 hA]
      · rcases le_or_lt t1 k.time with hB | hB
        · rw [interpolate_cons_left k _ t1 hB]
          exact head_le_interpolate t2 hs hm
        · rcases lt_or_le t2 b.time with hC | hC
          · rw [interpolate_seg hs hB (lt_of_le_of_lt h hC),
              interpolate_seg hs hA hC]
            have hΔ : 0 ≤ b.position - k.position := by linarith
            have hr : (t1 - k.time) / (b.time - k.time) ≤
                (t2 - k.time) / (b.time - k.time) :=
              (div_le_div_iff_of_pos_right (by linarith)).mpr (by linarith)
            nlinarith
          · rcases le_or_lt b.time t1 with hD | hD
            · rw [interpolate_peel hs hD, interpolate_peel hs (le_trans hD h)]
              exact ih hstail hmtail
            · rw [interpolate_seg hs hB hD, interpolate_peel hs hC]
              have h2 : b.position ≤ interpolate (b :: rest) t2 :=
                head_le_interpolate t2 hstail hmtail
              have hr1 : (t1 - k.time) / (b.time - k.time) ≤ 1 :=
                (div_le_one (by linarith)).mpr (by linarith)
              have hr0 : 0 ≤ (t1 - k.time) / (b.time - k.time) :=
                div_nonneg (by linarith) (by linarith)
              nlinarith

theorem findSegment_dup (a : Keyframe) (ks : List Keyframe) (t : ℚ) :
    findSegment t (a :: a :: ks) = findSegment t (a :: ks) := by
  rw [findSegment,
    if_neg (by rintro ⟨hx, hy⟩; exact absurd (lt_of_le_of_lt hx hy) (lt_irrefl _))]

theorem interpolate_dedup (k a : Keyframe) (ks : List Keyframe) (t : ℚ) :
    interpolate (k :: a :: a :: ks) t = interpolate (k :: a :: ks) t := by
  have hlast : (a :: a :: ks).getLastD k = (a :: ks).getLastD k := by
    rw [List.getLastD_cons, List.getLastD_cons, List.getLastD_cons]
  have hfind : findSegment t (k :: a :: a :: ks) = findSegment t (k :: a :: ks) := by
    rw [findSegment]
    by_cases h : k.time ≤ t ∧ t < a.time
    · rw [if_pos h, findSegment, if_pos h]
    · rw [if_neg h, findSegment_dup, findSegment, if_neg h]
  simp only [interpolate]
  rw [hlast, hfind]

/-!
Properties of the phase-resolution scan.
-/

/-- Adjacent phases are contiguous: each endTime is the next startTime. -/
def phasesContiguous (ps : List ProcessPhaseData) : Prop :=
  List.Chain' (fun a b => a.endTime = b.startTime) ps

/-- In a contiguous list of phases with nonnegative widths, the head phase
ends no later than any later phase starts. -/
theorem head_end_le_start_of_mem {q : ProcessPhaseData} {ps : List ProcessPhaseData}
    (hadj : phasesContiguous (q :: ps))
    (hwd : ∀ r ∈ q :: ps, r.startTime ≤ r.endTime)
    {p : ProcessPhaseData} (hp : p ∈ ps) : q.endTime ≤ p.startTime := by
  induction ps generalizing q with
  | nil => cases hp
  | cons r ps' ih =>
    have h1 : q.endTime = r.startTime := (List.chain'_cons.mp hadj).1
    have h2 : phasesContiguous (r :: ps') := (List.chain'_cons.mp hadj).2
    rcases List.mem_cons.mp hp with rfl | hp'
    · exact le_of_eq h1
    · have h3 : r.startTime ≤ r.endTime := hwd r (by simp)
      have := ih h2 (fun x hx => hwd x (List.mem_cons_of_mem q hx)) hp'
      linarith

/-- The scan returns the name of any phase of a contiguous, nonnegative-width
list whose half-open interval contains t. -/
theorem scanPhase_eq_of_mem {ps : List ProcessPhaseData} {t : ℚ}
    (hadj : phasesContiguous ps)
    (hwd : ∀ r ∈ ps, r.startTime ≤ r.endTime)
    {p : ProcessPhaseData} (hp : p ∈ ps)
    (h1 : p.startTime ≤ t) (h2 : t < p.endTime) :
    scanPhase t ps = p.name := by
  induction ps with
  | nil => cases hp
  | cons q ps' ih =>
    rcases List.mem_cons.mp hp with rfl | hp'
    · rw [scanPhase, if_pos ⟨h1, h2⟩]
    · have hqe : q.endTime ≤ p.startTime := head_end_le_start_of_mem hadj hwd hp'
      rw [scanPhase, if_neg (by rintro ⟨hx, hy⟩; exact absurd hy (not_lt.mpr (by linarith)))]
      exact ih (List.Chain'.tail hadj) (fun x hx => hwd x (List.mem_cons_of_mem q hx)) hp'

/-- The head of a contiguous, nonnegative-width phase list ends no later
than the last phase of the list ends. -/
theorem head_end_le_getLastD_end {q : ProcessPhaseData} {ps : List ProcessPhaseData}
    {d : ProcessPhaseData} (hadj : phasesContiguous (q :: ps))
    (hwd : ∀ r ∈ q :: ps, r.startTime ≤ r.endTime) :
    q.endTime ≤ ((q :: ps).getLastD d).endTime := by
  induction ps generalizing q d with
  | nil => simp
  | cons r ps' ih =>
    have h1 : q.endTime = r.startTime := (List.chain'_cons.mp hadj).1
    have h3 : r.startTime ≤ r.endTime := hwd r (by simp)
    have h2 := ih (q := r) (d := q) (List.chain'_cons.mp hadj).2
      (fun x hx => hwd x (List.mem_cons_of_mem q hx))
    rw [List.getLastD_cons]
    linarith

/-- Any member of a contiguous, nonnegative-width phase list ends no later
than the last phase of the list ends. -/
theorem end_le_getLastD_end {ps : List ProcessPhaseData} {d : ProcessPhaseData}
    (hadj : phasesContiguous ps)
    (hwd : ∀ r ∈ ps, r.startTime ≤ r.endTime)
    {p : ProcessPhaseData} (hp : p ∈ ps) :
    p.endTime ≤ (ps.getLastD d).endTime := by
  induction ps generalizing d with
  | nil => cases hp
  | cons q ps' ih =>
    rcases List.mem_cons.mp hp with rfl | hp'
    · exact head_end_le_getLastD_end hadj hwd
    · cases ps' with
      | nil => cases hp'
      | cons r ps'' =>
        have h2 := ih (d := q) (List.Chain'.tail hadj)
          (fun x hx => hwd x (List.mem_cons_of_mem q hx)) hp'
        rw [List.getLastD_cons]
        exact h2

/-!
Arithmetic facts about the generated quantities.
-/

theorem mathPi_pos : 0 < mathPi := by norm_num [mathPi]

namespace Gen

theorem wirePerCoil_pos {p : ProcessInputParams} (hm : 0 < p.meanDiameter) :
    0 < wirePerCoil p := mul_pos mathPi_pos hm

theorem closedCoils_nonneg {p : ProcessInputParams}
    (hat : p.activeCoils ≤ p.totalCoils) : 0 ≤ closedCoils p := by
  unfold closedCoils; linarith

theorem firstClosedCoils_nonneg {p : ProcessInputParams}
    (hat : p.activeCoils ≤ p.totalCoils) : 0 ≤ firstClosedCoils p := by
  unfold firstClosedCoils
  exact_mod_cast Int.ceil_nonneg (closedCoils_nonneg hat)

theorem endClosedCoils_nonneg {p : ProcessInputParams}
    (hat : p.activeCoils ≤ p.totalCoils) : 0 ≤ endClosedCoils p := by
  unfold endClosedCoils
  exact_mod_cast Int.le_floor.mpr (by simpa using closedCoils_nonneg hat)

theorem timeFirstClosed_nonneg {p : ProcessInputParams} (hm : 0 < p.meanDiameter)
    (hf : 0 < p.feedSpeed) (hat : p.activeCoils ≤ p.totalCoils) :
    0 ≤ timeFirstClosed p :=
  div_nonneg (mul_nonneg (wirePerCoil_pos hm).le (firstClosedCoils_nonneg hat)) hf.le

theorem timeBody_pos {p : ProcessInputParams} (hm : 0 < p.meanDiameter)
    (ha : 0 < p.activeCoils) (hf : 0 < p.feedSpeed) : 0 < timeBody p :=
  div_pos (mul_pos (wirePerCoil_pos hm) ha) hf

theorem timeEndClosed_nonneg {p : ProcessInputParams} (hm : 0 < p.meanDiameter)
    (hf : 0 < p.feedSpeed) (hat : p.activeCoils ≤ p.totalCoils) :
    0 ≤ timeEndClosed p :=
  div_nonneg (mul_nonneg (wirePerCoil_pos hm).le (endClosedCoils_nonneg hat)) hf.le

theorem phasesList_chain (p : ProcessInputParams) :
    phasesContiguous (phasesList p) := by
  unfold phasesContiguous phasesList preCutStart
  by_cases hE : 0 < endClosedCoils p <;>
    simp [hE, List.chain'_cons, tEndClosed]

theorem phasesList_widths {p : ProcessInputParams} (hm : 0 < p.meanDiameter)
    (ha : 0 < p.activeCoils) (hf : 0 < p.feedSpeed)
    (hat : p.activeCoils ≤ p.totalCoils) :
    ∀ r ∈ phasesList p, r.startTime ≤ r.endTime := by
  have h1 := timeFirstClosed_nonneg hm hf hat
  have h2 := (timeBody_pos hm ha hf).le
  have h3 := timeEndClosed_nonneg hm hf hat
  intro r hr
  unfold phasesList at hr
  by_cases hE : 0 < endClosedCoils p <;>
    simp only [hE, if_true, if_false, reduceIte, List.cons_append,
      List.nil_append, List.mem_cons, List.not_mem_nil, or_false] at hr <;>
    rcases hr with rfl | rfl | rfl | rfl | rfl | rfl | rfl <;>
    simp [t1End, t2End, tEndClosed, preCutStart, preCutEnd, tCutEnd,
      totalCycleTime, hE] <;>
    linarith

theorem phasesList_getLastD (p : ProcessInputParams) (d : ProcessPhaseData) :
    (phasesList p).getLastD d =
      ⟨ProcessPhase.reset, tCutEnd p, totalCycleTime p⟩ := by
  unfold phasesList
  by_cases hE : 0 < endClosedCoils p <;> simp [hE, List.getLastD_cons]

end Gen

/-- C1: for every input to the process generator, the generated phase list
is contiguous and non-overlapping: each endTime equals the next startTime,
the first phase starts at 0, and the last phase ends at totalCycleTime. -/
theorem phase_layout_contiguous (params : ProcessInputParams) :
    phasesContiguous (generateCompressionSpringProcess params).phases ∧
    ((generateCompressionSpringProcess params).phases.head?.map
      (fun q => q.startTime)) = some 0 ∧
    ((generateCompressionSpringProcess params).phases.getLastD
      ⟨ProcessPhase.idle, 0, 0⟩).endTime =
      (generateCompressionSpringProcess params).totalCycleTime := by
  rw [gen_eq]
  refine ⟨Gen.phasesList_chain params, ?_, ?_⟩
  · rfl
  · rw [Gen.phasesList_getLastD]

theorem Gen.totalCycleTime_pos {p : ProcessInputParams} (hm : 0 < p.meanDiameter)
    (ha : 0 < p.activeCoils) (hf : 0 < p.feedSpeed)
    (hat : p.activeCoils ≤ p.totalCoils) : 0 < Gen.totalCycleTime p := by
  have h1 := Gen.timeFirstClosed_nonneg hm hf hat
  have h2 := (Gen.timeBody_pos hm ha hf).le
  have h3 := Gen.timeEndClosed_nonneg hm hf hat
  unfold Gen.totalCycleTime Gen.tCutEnd Gen.preCutEnd Gen.preCutStart
    Gen.tEndClosed Gen.t2End Gen.t1End
  by_cases hE : 0 < Gen.endClosedCoils p <;> simp [hE] <;> linarith

/-- The currentPhase field of the sampler, written with the named pieces. -/
theorem sample_currentPhase (proc : CompressionSpringProcess) (time : ℚ) :
    (interpolateAxisPositions proc time).currentPhase =
      (if (proc.phases.getLastD ⟨ProcessPhase.idle, 0, 0⟩).endTime ≤
            max 0 (min time proc.totalCycleTime)
       then ProcessPhase.reset
       else scanPhase (max 0 (min time proc.totalCycleTime)) proc.phases) := rfl

/-- Scenario A input of the spec (two closed coils in total). -/
def scenarioA : ProcessInputParams :=
  { wireDiameter := 2, meanDiameter := 16, activeCoils := 8, totalCoils := 10,
    pitch := 4, endType := EndType.closed, feedSpeed := 50 }

/-- Scenario B input of the spec (no closed coils). -/
def scenarioB : ProcessInputParams :=
  { wireDiameter := 2, meanDiameter := 16, activeCoils := 10, totalCoils := 10,
    pitch := 4, endType := EndType.closed, feedSpeed := 50 }

/-- C2: the sampler resolves currentPhase by right-open intervals on the
clamped time: any generated phase whose interval [startTime, endTime)
contains the clamped time names the resolved phase, and a query at or
beyond the cycle end resolves to reset. -/
theorem currentPhase_resolution (params : ProcessInputParams)
    (hm : 0 < params.meanDiameter) (ha : 0 < params.activeCoils)
    (hf : 0 < params.feedSpeed) (hat : params.activeCoils ≤ params.totalCoils)
    (time : ℚ) :
    (∀ ph ∈ (generateCompressionSpringProcess params).phases,
        ph.startTime ≤
            max 0 (min time (generateCompressionSpringProcess params).totalCycleTime) →
        max 0 (min time (generateCompressionSpringProcess params).totalCycleTime) <
            ph.endTime →
        (interpolateAxisPositions (generateCompressionSpringProcess params)
            time).currentPhase = ph.name) ∧
    ((generateCompressionSpringProcess params).totalCycleTime ≤ time →
      (interpolateAxisPositions (generateCompressionSpringProcess params)
          time).currentPhase = ProcessPhase.reset) := by
  have hchain := Gen.phasesList_chain params
  have hwd := Gen.phasesList_widths hm ha hf hat
  have hTpos := Gen.totalCycleTime_pos hm ha hf hat
  constructor
  · intro ph hmem h1 h2
    rw [gen_eq] at hmem ⊢
    rw [sample_currentPhase]
    have hle : ph.endTime ≤
        ((Gen.phasesList params).getLastD ⟨ProcessPhase.idle, 0, 0⟩).endTime :=
      end_le_getLastD_end hchain hwd hmem
    rw [gen_eq] at h1 h2
    simp only at h1 h2
    rw [if_neg (by simp only; exact not_le.mpr (lt_of_lt_of_le h2 hle))]
    exact scanPhase_eq_of_mem hchain hwd hmem h1 h2
  · intro hT
    rw [gen_eq] at hT ⊢
    rw [sample_currentPhase]
    simp only
    have hmin : min time (Gen.totalCycleTime params) = Gen.totalCycleTime params :=
      min_eq_right hT
    rw [hmin, max_eq_right hTpos.le, Gen.phasesList_getLastD, if_pos le_rfl]

theorem scenarioA_firstCC : Gen.firstClosedCoils scenarioA = 1 := by
  norm_num [Gen.firstClosedCoils, Gen.closedCoils, scenarioA]

theorem scenarioA_endCC : Gen.endClosedCoils scenarioA = 1 := by
  norm_num [Gen.endClosedCoils, Gen.closedCoils, scenarioA]

theorem scenarioB_firstCC : Gen.firstClosedCoils scenarioB = 0 := by
  norm_num [Gen.firstClosedCoils, Gen.closedCoils, scenarioB]

theorem scenarioB_endCC : Gen.endClosedCoils scenarioB = 0 := by
  norm_num [Gen.endClosedCoils, Gen.closedCoils, scenarioB]

theorem scenarioA_T : Gen.totalCycleTime scenarioA = 7 / 10 + 16 / 5 * mathPi := by
  unfold Gen.totalCycleTime Gen.tCutEnd Gen.preCutEnd Gen.preCutStart
    Gen.tEndClosed Gen.t2End Gen.t1End Gen.timeFirstClosed Gen.timeBody
    Gen.timeEndClosed Gen.firstClosedLength Gen.bodyLength Gen.endClosedLength
    Gen.wirePerCoil
  rw [scenarioA_endCC, scenarioA_firstCC]
  norm_num [scenarioA]
  ring

theorem currentPhase_resolution_witness :
    (interpolateAxisPositions (generateCompressionSpringProcess scenarioA)
        (1 / 20)).currentPhase = ProcessPhase.idle ∧
    (interpolateAxisPositions (generateCompressionSpringProcess scenarioA)
        1000000).currentPhase = ProcessPhase.reset := by
  have hm : (0:ℚ) < scenarioA.meanDiameter := by norm_num [scenarioA]
  have ha : (0:ℚ) < scenarioA.activeCoils := by norm_num [scenarioA]
  have hf : (0:ℚ) < scenarioA.feedSpeed := by norm_num [scenarioA]
  have hat : scenarioA.activeCoils ≤ scenarioA.totalCoils := by norm_num [scenarioA]
  have hT : (1:ℚ) / 20 ≤ (generateCompressionSpringProcess scenarioA).totalCycleTime := by
    rw [gen_eq]
    show (1:ℚ) / 20 ≤ Gen.totalCycleTime scenarioA
    rw [scenarioA_T]
    norm_num [mathPi]
  have hclamp : max 0 (min (1 / 20 : ℚ)
      (generateCompressionSpringProcess scenarioA).totalCycleTime) = 1 / 20 := by
    rw [min_eq_left hT, max_eq_right (by norm_num)]
  constructor
  · refine (currentPhase_resolution scenarioA hm ha hf hat (1 / 20)).1
      ⟨ProcessPhase.idle, 0, 1 / 10⟩ ?_ ?_ ?_
    · rw [gen_eq]
      simp [Gen.phasesList]
    · rw [hclamp]
      norm_num
    · rw [hclamp]
      norm_num
  · refine (currentPhase_resolution scenarioA hm ha hf hat 1000000).2 ?_
    rw [gen_eq]
    show Gen.totalCycleTime scenarioA ≤ 1000000
    rw [scenarioA_T]
    norm_num [mathPi]

/-- C7: with Scenario B input (activeCoils = totalCoils = 10) the generator
omits the end_closed_coil phase and emits exactly the six phases idle,
first_closed_coil (zero duration), body_coils, pre_cut, cutting, reset; in
general the end_closed_coil phase is present iff
floor((totalCoils - activeCoils) / 2) > 0. -/
theorem end_closed_phase_iff :
    (generateCompressionSpringProcess scenarioB).phases.map (fun q => q.name) =
      [ProcessPhase.idle, ProcessPhase.first_closed_coil, ProcessPhase.body_coils,
       ProcessPhase.pre_cut, ProcessPhase.cutting, ProcessPhase.reset] ∧
    (generateCompressionSpringProcess scenarioB).phases.get? 1 =
      some ⟨ProcessPhase.first_closed_coil, 1 / 10, 1 / 10⟩ ∧
    ∀ params : ProcessInputParams,
      (ProcessPhase.end_closed_coil ∈
          (generateCompressionSpringProcess params).phases.map (fun q => q.name) ↔
        0 < ⌊(params.totalCoils - params.activeCoils) / 2⌋) := by
  refine ⟨?_, ?_, ?_⟩
  · rw [gen_eq]
    simp [Gen.phasesList, scenarioB_endCC]
  · rw [gen_eq]
    have h1 : Gen.t1End scenarioB = 1 / 10 := by
      unfold Gen.t1End Gen.timeFirstClosed Gen.firstClosedLength
      rw [scenarioB_firstCC]
      norm_num
    simp [Gen.phasesList, scenarioB_endCC, h1]
  · intro params
    rw [gen_eq]
    by_cases hE : 0 < Gen.endClosedCoils params
    · have hZ : 0 < ⌊(params.totalCoils - params.activeCoils) / 2⌋ := by
        have h := hE
        unfold Gen.endClosedCoils Gen.closedCoils at h
        exact_mod_cast h
      simp [Gen.phasesList, hE, hZ]
    · have hZ : ¬ 0 < ⌊(params.totalCoils - params.activeCoils) / 2⌋ := by
        intro hcon
        apply hE
        unfold Gen.endClosedCoils Gen.closedCoils
        exact_mod_cast hcon
      simp [Gen.phasesList, hE, hZ]

/-- C8: the interpolator returns 0 on an empty keyframe sequence, and the
axis lookup returns 0 both when the axis id is absent from the axes list
and when the resolved profile has no keyframes. -/
theorem empty_and_missing_axis_default_zero (t : ℚ) (axes : List AxisProfile)
    (id : String) :
    interpolate [] t = 0 ∧
    ((∀ a ∈ axes, a.axisId ≠ id) → getAxisPos axes t id = 0) ∧
    (∀ a : AxisProfile, axes.find? (fun x => x.axisId == id) = some a →
      a.keyframes = [] → getAxisPos axes t id = 0) := by
  refine ⟨rfl, ?_, ?_⟩
  · intro h
    unfold getAxisPos
    have : axes.find? (fun x => x.axisId == id) = none := by
      rw [List.find?_eq_none]
      intro a ha
      simpa using h a ha
    rw [this]
  · intro a hfind hkf
    unfold getAxisPos
    rw [hfind]
    simp [hkf, interpolate_nil]

theorem empty_and_missing_axis_default_zero_witness :
    getAxisPos [⟨"feed", []⟩] 1 "coiling" = 0 ∧
    getAxisPos [⟨"feed", []⟩] 1 "feed" = 0 := by
  constructor
  · refine (empty_and_missing_axis_default_zero 1 [⟨"feed", []⟩] "coiling").2.1 ?_
    intro a ha
    simp at ha
    simp [ha]
  · refine (empty_and_missing_axis_default_zero 1 [⟨"feed", []⟩] "feed").2.2
      ⟨"feed", []⟩ ?_ rfl
    simp [List.find?]

/-- C10: with no loaded process, setTime and reset leave the store state
unchanged; in particular reset does not clear isPlaying. -/
theorem store_noop_without_process (s : ProcessState) (t : ℚ)
    (h : s.process = none) :
    setTime s t = s ∧ reset s = s ∧ (reset s).isPlaying = s.isPlaying := by
  refine ⟨?_, ?_, ?_⟩ <;> simp [setTime, reset, h]

/-- An example store that is playing while no process is loaded. -/
def playingEmptyStore : ProcessState :=
  { process := none, currentTime := 0, isPlaying := true, playbackSpeed := 1,
    axisPositions := none, currentRecipe := none, duration := 10 }

theorem store_noop_without_process_witness :
    setTime playingEmptyStore 5 = playingEmptyStore ∧
    reset playingEmptyStore = playingEmptyStore ∧
    (reset playingEmptyStore).isPlaying = true := by
  have h := store_noop_without_process playingEmptyStore 5 rfl
  exact ⟨h.1, h.2.1, by rw [h.2.1]; rfl⟩

/-- C3 counterexample: a store that is playing but has no loaded process is
changed by tick (currentTime advances), so tick is not a no-op whenever no
process is loaded. -/
theorem tick_no_process_not_noop :
    playingEmptyStore.process = none ∧
    tick playingEmptyStore 1 ≠ playingEmptyStore := by
  refine ⟨rfl, ?_⟩
  intro h
  have hc := congrArg ProcessState.currentTime h
  simp [tick, playingEmptyStore] at hc

/-- C3 amended: tick is a no-op exactly when the store is not playing; when
playing it advances currentTime by deltaTime * playbackSpeed even with no
process loaded, wrapping to 0 on reaching the cycle end (the process
totalCycleTime when loaded, the stored duration otherwise) and resampling
axisPositions from the loaded process (null when none). -/
theorem tick_amended (s : ProcessState) (d : ℚ) :
    (s.isPlaying = false → tick s d = s) ∧
    (s.isPlaying = true →
      (tick s d).isPlaying = s.isPlaying ∧
      (tick s d).process = s.process ∧
      (tick s d).playbackSpeed = s.playbackSpeed ∧
      (tick s d).duration = s.duration ∧
      (tick s d).currentRecipe = s.currentRecipe ∧
      (tick s d).currentTime =
        (if ((s.process.map (fun p => p.totalCycleTime)).getD s.duration) ≤
              s.currentTime + d * s.playbackSpeed
         then 0 else s.currentTime + d * s.playbackSpeed) ∧
      (tick s d).axisPositions =
        s.process.map (fun p => interpolateAxisPositions p ((tick s d).currentTime))) := by
  constructor
  · intro hp
    simp [tick, hp]
  · intro hp
    refine ⟨?_, ?_, ?_, ?_, ?_, ?_, ?_⟩ <;> simp [tick, hp]

/-- The same empty store, paused. -/
def pausedEmptyStore : ProcessState := { playingEmptyStore with isPlaying := false }

theorem tick_amended_witness :
    tick pausedEmptyStore 3 = pausedEmptyStore ∧
    (tick playingEmptyStore 1).currentTime = 1 := by
  constructor
  · exact (tick_amended pausedEmptyStore 3).1 rfl
  · have h := ((tick_amended playingEmptyStore 1).2 rfl).2.2.2.2.2.1
    rw [h]
    norm_num [playingEmptyStore]

/-- C6 counterexample: on the sorted two-keyframe sequence with both times 0
and positions 1 and 2, a query at the last keyframe time (0, which is at or
after the last time) returns the first position 1, not the last position 2:
the boundary case of the right clamp can disagree with the claim when the
first and last times coincide. -/
theorem interpolate_at_last_time_cex :
    timesSorted [Keyframe.mk 0 1, Keyframe.mk 0 2] ∧
    (Keyframe.mk 0 2).time ≤ 0 ∧
    interpolate [Keyframe.mk 0 1, Keyframe.mk 0 2] 0 ≠ (Keyframe.mk 0 2).position := by
  refine ⟨?_, by norm_num, ?_⟩
  · simp [timesSorted, List.chain'_cons]
  · rw [interpolate_cons_left _ _ _ (by norm_num)]
    norm_num

/-- C6 amended: for a non-empty keyframe sequence with weakly increasing
times, interpolation at any time at or before the first keyframe time
returns the first position, and interpolation at any time strictly after
the last keyframe time returns the last position. -/
theorem interpolate_clamp_amended (k : Keyframe) (ks : List Keyframe) (t t' : ℚ)
    (hs : timesSorted (k :: ks)) (hleft : t ≤ k.time)
    (hright : (ks.getLastD k).time < t') :
    interpolate (k :: ks) t = k.position ∧
    interpolate (k :: ks) t' = (ks.getLastD k).position := by
  refine ⟨interpolate_cons_left k ks t hleft, ?_⟩
  have h1 : k.time ≤ (ks.getLastD k).time := time_le_getLastD hs
  exact interpolate_cons_right k ks t'
    (not_le.mpr (lt_of_le_of_lt h1 hright)) hright.le

theorem interpolate_clamp_amended_witness :
    interpolate [Keyframe.mk 0 1, Keyframe.mk 2 5] (-1) = 1 ∧
    interpolate [Keyframe.mk 0 1, Keyframe.mk 2 5] 3 = 5 := by
  have h := interpolate_clamp_amended (Keyframe.mk 0 1) [Keyframe.mk 2 5] (-1) 3
    (by simp [timesSorted, List.chain'_cons])
    (by norm_num) (by norm_num)
  exact ⟨h.1, h.2⟩

/-!
Field-level views of the sampler and evaluation of generated profiles at
the cycle boundaries.
-/

theorem sample_feed_def (proc : CompressionSpringProcess) (time : ℚ) :
    (interpolateAxisPositions proc time).feed =
      getAxisPos proc.axes (max 0 (min time proc.totalCycleTime)) "feed" := rfl

theorem sample_coiling_def (proc : CompressionSpringProcess) (time : ℚ) :
    (interpolateAxisPositions proc time).coiling =
      getAxisPos proc.axes (max 0 (min time proc.totalCycleTime)) "coiling" := rfl

theorem sample_pitch_def (proc : CompressionSpringProcess) (time : ℚ) :
    (interpolateAxisPositions proc time).pitch =
      getAxisPos proc.axes (max 0 (min time proc.totalCycleTime)) "pitch" := rfl

theorem sample_cut_def (proc : CompressionSpringProcess) (time : ℚ) :
    (interpolateAxisPositions proc time).cut =
      getAxisPos proc.axes (max 0 (min time proc.totalCycleTime)) "cut" := rfl

theorem sample_additional_def (proc : CompressionSpringProcess) (time : ℚ) :
    (interpolateAxisPositions proc time).additional =
      getAxisPos proc.axes (max 0 (min time proc.totalCycleTime)) "additional" := rfl

theorem sample_currentCoils_def (proc : CompressionSpringProcess) (time : ℚ) :
    (interpolateAxisPositions proc time).currentCoils =
      (interpolateAxisPositions proc time).feed /
        proc.springGeometry.wirePerCoil := rfl

theorem getAxisPos_gen_feed (p : ProcessInputParams) (t : ℚ) :
    getAxisPos (Gen.axesList p) t "feed" = interpolate (Gen.feedKfs p) t := by
  unfold getAxisPos Gen.axesList
  simp [List.find?]

theorem getAxisPos_gen_coiling (p : ProcessInputParams) (t : ℚ) :
    getAxisPos (Gen.axesList p) t "coiling" = interpolate (Gen.coilingKfs p) t := by
  unfold getAxisPos Gen.axesList
  simp [List.find?]

theorem getAxisPos_gen_pitch (p : ProcessInputParams) (t : ℚ) :
    getAxisPos (Gen.axesList p) t "pitch" = interpolate (Gen.pitchKfs p) t := by
  unfold getAxisPos Gen.axesList
  simp [List.find?]

theorem getAxisPos_gen_cut (p : ProcessInputParams) (t : ℚ) :
    getAxisPos (Gen.axesList p) t "cut" = interpolate (Gen.cutKfs p) t := by
  unfold getAxisPos Gen.axesList
  simp [List.find?]

theorem getAxisPos_gen_additional (p : ProcessInputParams) (t : ℚ) :
    getAxisPos (Gen.axesList p) t "additional" = interpolate (Gen.addKfs p) t := by
  unfold getAxisPos Gen.axesList
  simp [List.find?]

theorem interpolate_head0 (k : Keyframe) (ks : List Keyframe) (h : k.time = 0) :
    interpolate (k :: ks) 0 = k.position :=
  interpolate_cons_left k ks 0 (le_of_eq h.symm)

theorem gen_at0_eval (p : ProcessInputParams) :
    interpolate (Gen.feedKfs p) 0 = 0 ∧
    interpolate (Gen.coilingKfs p) 0 = Gen.coilingTarget p + 10 ∧
    interpolate (Gen.pitchKfs p) 0 = 0 ∧
    interpolate (Gen.cutKfs p) 0 = 30 ∧
    interpolate (Gen.addKfs p) 0 = 20 := by
  refine ⟨?_, ?_, ?_, ?_, ?_⟩
  · simp only [Gen.feedKfs, List.cons_append]
    rw [interpolate_head0 _ _ rfl]
  · simp only [Gen.coilingKfs]
    rw [interpolate_head0 _ _ rfl]
  · simp only [Gen.pitchKfs, Gen.pitchBase, List.cons_append]
    rw [interpolate_head0 _ _ rfl]
  · simp only [Gen.cutKfs]
    rw [interpolate_head0 _ _ rfl]
  · simp only [Gen.addKfs]
    rw [interpolate_head0 _ _ rfl]

theorem gen_atT_eval (p : ProcessInputParams) (hT : 0 < Gen.totalCycleTime p) :
    interpolate (Gen.feedKfs p) (Gen.totalCycleTime p) = Gen.totalWireLength p ∧
    interpolate (Gen.coilingKfs p) (Gen.totalCycleTime p) = Gen.coilingTarget p + 10 ∧
    interpolate (Gen.pitchKfs p) (Gen.totalCycleTime p) = 0 ∧
    interpolate (Gen.cutKfs p) (Gen.totalCycleTime p) = 30 ∧
    interpolate (Gen.addKfs p) (Gen.totalCycleTime p) = 20 := by
  have h1 : ¬ Gen.totalCycleTime p ≤ (Keyframe.mk 0 0).time := by
    simpa using not_le.mpr hT
  have h1c : ¬ Gen.totalCycleTime p ≤
      (Keyframe.mk 0 (Gen.coilingTarget p + 10)).time := by
    simpa using not_le.mpr hT
  have h1k : ¬ Gen.totalCycleTime p ≤ (Keyframe.mk 0 30).time := by
    simpa using not_le.mpr hT
  have h1a : ¬ Gen.totalCycleTime p ≤ (Keyframe.mk 0 20).time := by
    simpa using not_le.mpr hT
  refine ⟨?_, ?_, ?_, ?_, ?_⟩
  · by_cases hE : 0 < Gen.endClosedCoils p <;>
    · simp only [Gen.feedKfs, hE, if_true, if_false, reduceIte,
        List.cons_append, List.nil_append]
      rw [interpolate_cons_right _ _ _ h1 (by simp [List.getLastD_cons])]
      simp [List.getLastD_cons]
  · simp only [Gen.coilingKfs]
    rw [interpolate_cons_right _ _ _ h1c (by simp [List.getLastD_cons])]
    simp [List.getLastD_cons]
  · by_cases hE : 0 < Gen.endClosedCoils p <;>
    · simp only [Gen.pitchKfs, Gen.pitchBase, hE, if_true, if_false, reduceIte,
        List.cons_append, List.nil_append, List.append_nil]
      rw [interpolate_cons_right _ _ _ h1 (by simp [List.getLastD_cons])]
      simp [List.getLastD_cons]
  · simp only [Gen.cutKfs]
    rw [interpolate_cons_right _ _ _ h1k (by simp [List.getLastD_cons])]
    simp [List.getLastD_cons]
  · simp only [Gen.addKfs]
    rw [interpolate_cons_right _ _ _ h1a (by simp [List.getLastD_cons])]
    simp [List.getLastD_cons]

theorem Gen.totalWireLength_pos {p : ProcessInputParams} (hm : 0 < p.meanDiameter)
    (ha : 0 < p.activeCoils) (hat : p.activeCoils ≤ p.totalCoils) :
    0 < Gen.totalWireLength p := by
  have h1 : 0 < Gen.bodyLength p := mul_pos (Gen.wirePerCoil_pos hm) ha
  have h2 : 0 ≤ Gen.firstClosedLength p :=
    mul_nonneg (Gen.wirePerCoil_pos hm).le (Gen.firstClosedCoils_nonneg hat)
  have h3 : 0 ≤ Gen.endClosedLength p :=
    mul_nonneg (Gen.wirePerCoil_pos hm).le (Gen.endClosedCoils_nonneg hat)
  unfold Gen.totalWireLength
  linarith

/-- C9 amended: the samples at time 0 and at time totalCycleTime agree on
the coiling, pitch, cut and additional fields, but not only currentPhase
differs: the feed field is 0 at time 0 and totalWireLength (a positive
quantity) at totalCycleTime, so feed and thus currentCoils differ too. -/
theorem sample_loop_amended (params : ProcessInputParams)
    (hm : 0 < params.meanDiameter) (ha : 0 < params.activeCoils)
    (hf : 0 < params.feedSpeed) (hat : params.activeCoils ≤ params.totalCoils) :
    (interpolateAxisPositions (generateCompressionSpringProcess params) 0).coiling =
      (interpolateAxisPositions (generateCompressionSpringProcess params)
        (generateCompressionSpringProcess params).totalCycleTime).coiling ∧
    (interpolateAxisPositions (generateCompressionSpringProcess params) 0).pitch =
      (interpolateAxisPositions (generateCompressionSpringProcess params)
        (generateCompressionSpringProcess params).totalCycleTime).pitch ∧
    (interpolateAxisPositions (generateCompressionSpringProcess params) 0).cut =
      (interpolateAxisPositions (generateCompressionSpringProcess params)
        (generateCompressionSpringProcess params).totalCycleTime).cut ∧
    (interpolateAxisPositions (generateCompressionSpringProcess params) 0).additional =
      (interpolateAxisPositions (generateCompressionSpringProcess params)
        (generateCompressionSpringProcess params).totalCycleTime).additional ∧
    (interpolateAxisPositions (generateCompressionSpringProcess params) 0).feed = 0 ∧
    (interpolateAxisPositions (generateCompressionSpringProcess params)
      (generateCompressionSpringProcess params).totalCycleTime).feed =
        Gen.totalWireLength params ∧
    (interpolateAxisPositions (generateCompressionSpringProcess params) 0).feed ≠
      (interpolateAxisPositions (generateCompressionSpringProcess params)
        (generateCompressionSpringProcess params).totalCycleTime).feed := by
  have hT := Gen.totalCycleTime_pos hm ha hf hat
  have hW := Gen.totalWireLength_pos hm ha hat
  have hc0 : max 0 (min 0 (Gen.totalCycleTime params)) = 0 := by
    rw [min_eq_left hT.le, max_self]
  have hcT : max 0 (min (Gen.totalCycleTime params) (Gen.totalCycleTime params)) =
      Gen.totalCycleTime params := by
    rw [min_self, max_eq_right hT.le]
  obtain ⟨e1, e2, e3, e4, e5⟩ := gen_at0_eval params
  obtain ⟨f1, f2, f3, f4, f5⟩ := gen_atT_eval params hT
  rw [gen_eq]
  simp only [sample_feed_def, sample_coiling_def, sample_pitch_def,
    sample_cut_def, sample_additional_def, hc0, hcT,
    getAxisPos_gen_feed, getAxisPos_gen_coiling, getAxisPos_gen_pitch,
    getAxisPos_gen_cut, getAxisPos_gen_additional]
  rw [e1, e2, e3, e4, e5, f1, f2, f3, f4, f5]
  refine ⟨rfl, rfl, rfl, rfl, rfl, rfl, ?_⟩
  exact fun h => absurd h.symm (ne_of_gt hW)

/-- C9 counterexample: for the generated Scenario A process the sampled
feed position differs between time 0 and time totalCycleTime, so the two
samples do not differ only in currentPhase. -/
theorem sample_loop_cex :
    (interpolateAxisPositions (generateCompressionSpringProcess scenarioA) 0).feed ≠
      (interpolateAxisPositions (generateCompressionSpringProcess scenarioA)
        (generateCompressionSpringProcess scenarioA).totalCycleTime).feed := by
  have hm : (0:ℚ) < scenarioA.meanDiameter := by norm_num [scenarioA]
  have ha : (0:ℚ) < scenarioA.activeCoils := by norm_num [scenarioA]
  have hf : (0:ℚ) < scenarioA.feedSpeed := by norm_num [scenarioA]
  have hat : scenarioA.activeCoils ≤ scenarioA.totalCoils := by norm_num [scenarioA]
  have hT := Gen.totalCycleTime_pos hm ha hf hat
  have hW := Gen.totalWireLength_pos hm ha hat
  have hc0 : max 0 (min 0 (Gen.totalCycleTime scenarioA)) = 0 := by
    rw [min_eq_left hT.le, max_self]
  have hcT : max 0 (min (Gen.totalCycleTime scenarioA) (Gen.totalCycleTime scenarioA)) =
      Gen.totalCycleTime scenarioA := by
    rw [min_self, max_eq_right hT.le]
  obtain ⟨e1, _, _, _, _⟩ := gen_at0_eval scenarioA
  obtain ⟨f1, _, _, _, _⟩ := gen_atT_eval scenarioA hT
  rw [gen_eq]
  simp only [sample_feed_def, hc0, hcT, getAxisPos_gen_feed]
  rw [e1, f1]
  exact fun h => absurd h.symm (ne_of_gt hW)

theorem sample_loop_amended_witness :
    (interpolateAxisPositions (generateCompressionSpringProcess scenarioA) 0).coiling =
      (interpolateAxisPositions (generateCompressionSpringProcess scenarioA)
        (generateCompressionSpringProcess scenarioA).totalCycleTime).coiling ∧
    (interpolateAxisPositions (generateCompressionSpringProcess scenarioA) 0).feed = 0 ∧
    (interpolateAxisPositions (generateCompressionSpringProcess scenarioA)
      (generateCompressionSpringProcess scenarioA).totalCycleTime).feed =
        Gen.totalWireLength scenarioA := by
  obtain h := sample_loop_amended scenarioA (by norm_num [scenarioA])
    (by norm_num [scenarioA]) (by norm_num [scenarioA]) (by norm_num [scenarioA])
  exact ⟨h.1, h.2.2.2.2.1, h.2.2.2.2.2.1⟩

/-!
Sortedness of the generated keyframe times.
-/

theorem cutApproachTime_eq (p : ProcessInputParams) :
    Gen.cutApproachTime p = Gen.preCutStart p := by
  unfold Gen.cutApproachTime Gen.phasesList
  by_cases hE : 0 < Gen.endClosedCoils p <;>
    simp [hE, List.find?,
      show (ProcessPhase.idle == ProcessPhase.pre_cut) = false from rfl,
      show (ProcessPhase.first_closed_coil == ProcessPhase.pre_cut) = false from rfl,
      show (ProcessPhase.body_coils == ProcessPhase.pre_cut) = false from rfl,
      show (ProcessPhase.end_closed_coil == ProcessPhase.pre_cut) = false from rfl,
      show (ProcessPhase.pre_cut == ProcessPhase.pre_cut) = true from rfl]

theorem timesSorted_feedKfs {p : ProcessInputParams} (hm : 0 < p.meanDiameter)
    (ha : 0 < p.activeCoils) (hf : 0 < p.feedSpeed)
    (hat : p.activeCoils ≤ p.totalCoils) : timesSorted (Gen.feedKfs p) := by
  have h1 := Gen.timeFirstClosed_nonneg hm hf hat
  have h2 := (Gen.timeBody_pos hm ha hf).le
  have h3 := Gen.timeEndClosed_nonneg hm hf hat
  unfold timesSorted Gen.feedKfs Gen.totalCycleTime Gen.tCutEnd Gen.preCutEnd
    Gen.preCutStart Gen.tEndClosed Gen.t2End Gen.t1End
  by_cases hE : 0 < Gen.endClosedCoils p <;>
  · simp only [hE, if_true, if_false, reduceIte, List.cons_append, List.nil_append]
    simp [List.chain'_cons]
    repeat' apply And.intro
    all_goals linarith

theorem timesSorted_coilingKfs {p : ProcessInputParams} (hm : 0 < p.meanDiameter)
    (ha : 0 < p.activeCoils) (hf : 0 < p.feedSpeed)
    (hat : p.activeCoils ≤ p.totalCoils) : timesSorted (Gen.coilingKfs p) := by
  have h1 := Gen.timeFirstClosed_nonneg hm hf hat
  have h2 := (Gen.timeBody_pos hm ha hf).le
  have h3 := Gen.timeEndClosed_nonneg hm hf hat
  unfold timesSorted Gen.coilingKfs Gen.totalCycleTime Gen.tCutEnd Gen.preCutEnd
    Gen.preCutStart Gen.tEndClosed Gen.t2End Gen.t1End
  by_cases hE : 0 < Gen.endClosedCoils p <;>
  · simp only [hE, if_true, if_false, reduceIte]
    simp [List.chain'_cons]
    repeat' apply And.intro
    all_goals linarith

theorem timesSorted_pitchKfs {p : ProcessInputParams} (hm : 0 < p.meanDiameter)
    (ha : 0 < p.activeCoils) (hf : 0 < p.feedSpeed)
    (hat : p.activeCoils ≤ p.totalCoils) : timesSorted (Gen.pitchKfs p) := by
  have h1 := Gen.timeFirstClosed_nonneg hm hf hat
  have h2 := (Gen.timeBody_pos hm ha hf).le
  have h3 := Gen.timeEndClosed_nonneg hm hf hat
  unfold timesSorted Gen.pitchKfs Gen.pitchBase Gen.totalCycleTime Gen.tCutEnd
    Gen.preCutEnd Gen.preCutStart Gen.tEndClosed Gen.t2End Gen.t1End
  by_cases hE : 0 < Gen.endClosedCoils p <;>
  · simp only [hE, if_true, if_false, reduceIte, List.cons_append,
      List.nil_append, List.append_nil]
    simp [List.chain'_cons]
    repeat' apply And.intro
    all_goals linarith

theorem timesSorted_cutKfs {p : ProcessInputParams} (hm : 0 < p.meanDiameter)
    (ha : 0 < p.activeCoils) (hf : 0 < p.feedSpeed)
    (hat : p.activeCoils ≤ p.totalCoils) : timesSorted (Gen.cutKfs p) := by
  have h1 := Gen.timeFirstClosed_nonneg hm hf hat
  have h2 := (Gen.timeBody_pos hm ha hf).le
  have h3 := Gen.timeEndClosed_nonneg hm hf hat
  unfold timesSorted Gen.cutKfs
  rw [cutApproachTime_eq]
  unfold Gen.totalCycleTime Gen.tCutEnd Gen.preCutEnd
    Gen.preCutStart Gen.tEndClosed Gen.t2End Gen.t1End
  by_cases hE : 0 < Gen.endClosedCoils p <;>
  · simp only [hE, if_true, if_false, reduceIte]
    simp [List.chain'_cons]
    repeat' apply And.intro
    all_goals linarith

theorem timesSorted_addKfs {p : ProcessInputParams} (hm : 0 < p.meanDiameter)
    (ha : 0 < p.activeCoils) (hf : 0 < p.feedSpeed)
    (hat : p.activeCoils ≤ p.totalCoils) (hb : 2 / 10 ≤ Gen.timeBody p) :
    timesSorted (Gen.addKfs p) := by
  have h1 := Gen.timeFirstClosed_nonneg hm hf hat
  have h3 := Gen.timeEndClosed_nonneg hm hf hat
  unfold timesSorted Gen.addKfs
  unfold Gen.totalCycleTime Gen.tCutEnd Gen.preCutEnd
    Gen.preCutStart Gen.tEndClosed Gen.t2End Gen.t1End
  by_cases hE : 0 < Gen.endClosedCoils p <;>
  · simp only [hE, if_true, if_false, reduceIte]
    simp [List.chain'_cons]
    repeat' apply And.intro
    all_goals linarith

/-- A positive input (all parameters positive, activeCoils = totalCoils)
whose body phase lasts less than 0.2 seconds. -/
def fastInput : ProcessInputParams :=
  { wireDiameter := 1, meanDiameter := 1, activeCoils := 1, totalCoils := 1,
    pitch := 1, endType := EndType.closed, feedSpeed := 100 }

theorem fastInput_firstCC : Gen.firstClosedCoils fastInput = 0 := by
  norm_num [Gen.firstClosedCoils, Gen.closedCoils, fastInput]

theorem fastInput_endCC : Gen.endClosedCoils fastInput = 0 := by
  norm_num [Gen.endClosedCoils, Gen.closedCoils, fastInput]

/-- C4 counterexample: with the positive input fastInput, the generated
additional-axis profile has a decreasing pair of keyframe times (the
keyframe at t1End + 0.1 precedes the one at t2End - 0.1 in the list, but
t2End - 0.1 < t1End + 0.1 because the body phase is shorter than 0.2 s). -/
theorem axis_times_sorted_cex :
    ¬ (∀ a ∈ (generateCompressionSpringProcess fastInput).axes,
        timesSorted a.keyframes) := by
  intro h
  have hmem : (⟨"additional", Gen.addKfs fastInput⟩ : AxisProfile) ∈
      (generateCompressionSpringProcess fastInput).axes := by
    rw [gen_eq]
    simp [Gen.axesList]
  have h2 := h _ hmem
  have ht1 : Gen.t1End fastInput = 1 / 10 := by
    unfold Gen.t1End Gen.timeFirstClosed Gen.firstClosedLength
    rw [fastInput_firstCC]
    norm_num
  have ht2 : Gen.t2End fastInput = 1 / 10 + mathPi / 100 := by
    unfold Gen.t2End Gen.timeBody Gen.bodyLength Gen.wirePerCoil
    rw [ht1]
    norm_num [fastInput]
  unfold timesSorted Gen.addKfs at h2
  have hbad := (List.chain'_cons.mp
    ((List.chain'_cons.mp ((List.chain'_cons.mp
      ((List.chain'_cons.mp h2).2)).2)).2)).1
  rw [ht1, ht2] at hbad
  norm_num [mathPi] at hbad

/-- C4 amended: for every positive input with activeCoils at most
totalCoils, the feed, coiling, pitch and cut profiles have non-decreasing
keyframe times unconditionally, and the additional profile does too
provided the body phase lasts at least 0.2 seconds (timeBody at least 2/10,
the amount the counterexample forces). -/
theorem axis_times_sorted_amended (params : ProcessInputParams)
    (hm : 0 < params.meanDiameter) (ha : 0 < params.activeCoils)
    (hf : 0 < params.feedSpeed) (hat : params.activeCoils ≤ params.totalCoils) :
    (∀ a ∈ (generateCompressionSpringProcess params).axes,
        a.axisId ≠ "additional" → timesSorted a.keyframes) ∧
    (2 / 10 ≤ Gen.timeBody params →
      ∀ a ∈ (generateCompressionSpringProcess params).axes,
        timesSorted a.keyframes) := by
  constructor
  · intro a hmem hne
    rw [gen_eq] at hmem
    simp only [Gen.axesList, List.mem_cons, List.not_mem_nil, or_false] at hmem
    rcases hmem with rfl | rfl | rfl | rfl | rfl
    · exact timesSorted_feedKfs hm ha hf hat
    · exact timesSorted_coilingKfs hm ha hf hat
    · exact timesSorted_pitchKfs hm ha hf hat
    · exact timesSorted_cutKfs hm ha hf hat
    · exact absurd rfl hne
  · intro hb a hmem
    rw [gen_eq] at hmem
    simp only [Gen.axesList, List.mem_cons, List.not_mem_nil, or_false] at hmem
    rcases hmem with rfl | rfl | rfl | rfl | rfl
    · exact timesSorted_feedKfs hm ha hf hat
    · exact timesSorted_coilingKfs hm ha hf hat
    · exact timesSorted_pitchKfs hm ha hf hat
    · exact timesSorted_cutKfs hm ha hf hat
    · exact timesSorted_addKfs hm ha hf hat hb

theorem axis_times_sorted_amended_witness :
    timesSorted (Gen.feedKfs scenarioA) ∧ timesSorted (Gen.addKfs scenarioA) := by
  have h := axis_times_sorted_amended scenarioA (by norm_num [scenarioA])
    (by norm_num [scenarioA]) (by norm_num [scenarioA]) (by norm_num [scenarioA])
  have hb : 2 / 10 ≤ Gen.timeBody scenarioA := by
    unfold Gen.timeBody Gen.bodyLength Gen.wirePerCoil
    norm_num [scenarioA, mathPi]
  constructor
  · refine h.1 ⟨"feed", Gen.feedKfs scenarioA⟩ ?_ (by decide)
    rw [gen_eq]
    simp [Gen.axesList]
  · refine h.2 hb ⟨"additional", Gen.addKfs scenarioA⟩ ?_
    rw [gen_eq]
    simp [Gen.axesList]

/-!
Monotonicity of the feed profile.
-/

theorem timesStrict_feedKfs {p : ProcessInputParams} (hm : 0 < p.meanDiameter)
    (ha : 0 < p.activeCoils) (hf : 0 < p.feedSpeed)
    (hat : p.activeCoils ≤ p.totalCoils) (h0 : 0 < Gen.firstClosedCoils p) :
    timesStrict (Gen.feedKfs p) := by
  have htf : 0 < Gen.timeFirstClosed p :=
    div_pos (mul_pos (Gen.wirePerCoil_pos hm) h0) hf
  have htb := Gen.timeBody_pos hm ha hf
  have hte0 := Gen.timeEndClosed_nonneg hm hf hat
  unfold timesStrict Gen.feedKfs Gen.totalCycleTime Gen.tCutEnd Gen.preCutEnd
    Gen.preCutStart Gen.tEndClosed Gen.t2End Gen.t1End
  by_cases hE : 0 < Gen.endClosedCoils p
  · have hte : 0 < Gen.timeEndClosed p :=
      div_pos (mul_pos (Gen.wirePerCoil_pos hm) hE) hf
    simp only [hE, if_true, reduceIte, List.cons_append, List.nil_append]
    simp [List.chain'_cons]
    repeat' apply And.intro
    all_goals linarith
  · simp only [hE, if_false, reduceIte, List.cons_append, List.nil_append]
    simp [List.chain'_cons]
    repeat' apply And.intro
    all_goals linarith

theorem posMono_feedKfs {p : ProcessInputParams} (hm : 0 < p.meanDiameter)
    (ha : 0 < p.activeCoils) (hf : 0 < p.feedSpeed)
    (hat : p.activeCoils ≤ p.totalCoils) : posMono (Gen.feedKfs p) := by
  have h1 : 0 ≤ Gen.firstClosedLength p :=
    mul_nonneg (Gen.wirePerCoil_pos hm).le (Gen.firstClosedCoils_nonneg hat)
  have h2 : 0 ≤ Gen.bodyLength p :=
    mul_nonneg (Gen.wirePerCoil_pos hm).le ha.le
  have h3 : 0 ≤ Gen.endClosedLength p :=
    mul_nonneg (Gen.wirePerCoil_pos hm).le (Gen.endClosedCoils_nonneg hat)
  unfold posMono Gen.feedKfs Gen.totalWireLength
  by_cases hE : 0 < Gen.endClosedCoils p <;>
  · simp only [hE, if_true, if_false, reduceIte, List.cons_append, List.nil_append]
    simp [List.chain'_cons]
    repeat' apply And.intro
    all_goals linarith

theorem feed_interp_mono (p : ProcessInputParams) (hm : 0 < p.meanDiameter)
    (ha : 0 < p.activeCoils) (hf : 0 < p.feedSpeed)
    (hat : p.activeCoils ≤ p.totalCoils) {t1 t2 : ℚ} (h : t1 ≤ t2) :
    interpolate (Gen.feedKfs p) t1 ≤ interpolate (Gen.feedKfs p) t2 := by
  by_cases h0 : Gen.firstClosedCoils p = 0
  · have hcc0 : Gen.closedCoils p = 0 := by
      have hle : Gen.closedCoils p ≤ Gen.firstClosedCoils p := by
        unfold Gen.firstClosedCoils
        exact_mod_cast Int.le_ceil (Gen.closedCoils p)
      have hge := Gen.closedCoils_nonneg hat
      rw [h0] at hle
      linarith
    have hE : Gen.endClosedCoils p = 0 := by
      unfold Gen.endClosedCoils
      rw [hcc0]
      simp
    have hfcl : Gen.firstClosedLength p = 0 := by
      unfold Gen.firstClosedLength
      rw [h0, mul_zero]
    have htf : Gen.timeFirstClosed p = 0 := by
      unfold Gen.timeFirstClosed
      rw [hfcl, zero_div]
    have hfeed : Gen.feedKfs p =
        Keyframe.mk 0 0 :: Keyframe.mk (1 / 10) 0 :: Keyframe.mk (1 / 10) 0 ::
        [Keyframe.mk (Gen.t2End p) (Gen.bodyLength p),
         Keyframe.mk (Gen.tCutEnd p) (Gen.totalWireLength p),
         Keyframe.mk (Gen.totalCycleTime p) (Gen.totalWireLength p)] := by
      unfold Gen.feedKfs Gen.t1End
      rw [htf, hfcl, hE]
      norm_num
    have hecl : Gen.endClosedLength p = 0 := by
      unfold Gen.endClosedLength
      rw [hE, mul_zero]
    have htwl : Gen.totalWireLength p = Gen.bodyLength p := by
      unfold Gen.totalWireLength
      rw [hfcl, hecl]
      ring
    have htb := Gen.timeBody_pos hm ha hf
    have hblpos : 0 < Gen.bodyLength p := mul_pos (Gen.wirePerCoil_pos hm) ha
    have ht2 : 1 / 10 < Gen.t2End p := by
      unfold Gen.t2End Gen.t1End
      rw [htf]
      linarith
    have ht3 : Gen.t2End p < Gen.tCutEnd p := by
      unfold Gen.tCutEnd Gen.preCutEnd Gen.preCutStart Gen.tEndClosed
      rw [hE]
      simp
      linarith
    have ht4 : Gen.tCutEnd p < Gen.totalCycleTime p := by
      unfold Gen.totalCycleTime
      linarith
    rw [hfeed, interpolate_dedup, interpolate_dedup]
    apply interpolate_mono _ _ h
    · unfold timesStrict
      simp [List.chain'_cons]
      repeat' apply And.intro
      all_goals norm_num [ht2, ht3, ht4]
    · unfold posMono
      simp [List.chain'_cons]
      repeat' apply And.intro
      all_goals linarith [htwl]
  · have h0' : 0 < Gen.firstClosedCoils p :=
      lt_of_le_of_ne (Gen.firstClosedCoils_nonneg hat) (Ne.symm h0)
    exact interpolate_mono (timesStrict_feedKfs hm ha hf hat h0')
      (posMono_feedKfs hm ha hf hat) h

/-- C5: for every positive generator input with activeCoils at most
totalCoils, the sampled feed position is non-decreasing on the whole cycle:
for 0 <= t1 <= t2 <= totalCycleTime the sample at t1 has feed at most the
sample at t2. -/
theorem feed_monotone (params : ProcessInputParams)
    (hm : 0 < params.meanDiameter) (ha : 0 < params.activeCoils)
    (hf : 0 < params.feedSpeed) (hat : params.activeCoils ≤ params.totalCoils)
    (t1 t2 : ℚ) (h0 : 0 ≤ t1) (h12 : t1 ≤ t2)
    (h2T : t2 ≤ (generateCompressionSpringProcess params).totalCycleTime) :
    (interpolateAxisPositions (generateCompressionSpringProcess params) t1).feed ≤
      (interpolateAxisPositions (generateCompressionSpringProcess params) t2).feed := by
  have h2T' : t2 ≤ Gen.totalCycleTime params := h2T
  have hc1 : max 0 (min t1 (Gen.totalCycleTime params)) = t1 := by
    rw [min_eq_left (le_trans h12 h2T'), max_eq_right h0]
  have hc2 : max 0 (min t2 (Gen.totalCycleTime params)) = t2 := by
    rw [min_eq_left h2T', max_eq_right (le_trans h0 h12)]
  rw [gen_eq]
  simp only [sample_feed_def, getAxisPos_gen_feed, hc1, hc2]
  exact feed_interp_mono params hm ha hf hat h12

theorem feed_monotone_witness :
    (interpolateAxisPositions (generateCompressionSpringProcess scenarioA) 1).feed ≤
      (interpolateAxisPositions (generateCompressionSpringProcess scenarioA) 2).feed := by
  refine feed_monotone scenarioA (by norm_num [scenarioA]) (by norm_num [scenarioA])
    (by norm_num [scenarioA]) (by norm_num [scenarioA]) 1 2 (by norm_num)
    (by norm_num) ?_
  rw [gen_eq]
  show (2:ℚ) ≤ Gen.totalCycleTime scenarioA
  rw [scenarioA_T]
  norm_num [mathPi]
